import Mathlib

/-!
# Verification of the neofs-http-gw request/response translation engine

Shallow embedding, in Lean 4, of the upload composition pipeline
(`src/uploader/upload.go`, `src/neofs.go`), the bearer-token resolution chain
(`src/tokens/bearer-token.go`), the download/zip pipeline and the content-type
sniffer (`src/unnamed/part_000`, `src/downloader/neofs.go`), together with
theorems settling the specification claims about them.

Conventions of the embedding:
* Go strings are Lean `String`s (or `List Char` where character-level reasoning
  is needed); all keys involved are ASCII.
* `time.Time` instants and `time.Duration` values are `Int` nanoseconds.
* Go `uint64` arithmetic is `Nat` arithmetic with explicit `% 2 ^ 64`.
* Calls into the Go standard library or the NeoFS SDK (RFC3339 parsing,
  integer parsing, duration parsing, base64 decoding, token deserialization,
  network calls) are parameters of the embedding, since that code is not part
  of this repository.  All control flow around them is translated from the
  repository's source.
-/

namespace NeofsGw

/-! ## Attribute-key constants

The `utils` package of the repository is not among the given source files;
its constants are modelled from the spec.  The `SysAttribute*` names come from
the external `neofs-api-go` dependency, whose documented values are used. -/

/-- Modelled from the spec: `utils.UserAttributeHeaderPrefix`, the prefix
carried by HTTP headers that map to object attributes (§6 of the spec). -/
def userAttributeHeaderPrefix : String := "X-Attribute-"

/-- `objectapiv2.SysAttributePrefix` / `utils.SystemAttributePrefix`:
canonical prefix of system attribute keys (external `neofs-api-go` constant). -/
def systemAttributePrefix : String := "__NEOFS__"

/-- `objectapiv2.SysAttributeExpEpoch`: canonical key of the expiration-epoch
system attribute (external `neofs-api-go` constant). -/
def sysAttributeExpEpoch : String := "__NEOFS__EXPIRATION_EPOCH"

/-- Modelled from the spec: `utils.ExpirationRFC3339Attr`, the key (after the
user-attribute prefix) of the RFC3339 expiration header form (§4.4). -/
def expirationRFC3339Attr : String := "__NEOFS__EXPIRATION_RFC3339"

/-- Modelled from the spec: `utils.ExpirationTimestampAttr`, the key of the
Unix-timestamp expiration header form (§4.4). -/
def expirationTimestampAttr : String := "__NEOFS__EXPIRATION_TIMESTAMP"

/-- Modelled from the spec: `utils.ExpirationDurationAttr`, the key of the
relative-duration expiration header form (§4.4). -/
def expirationDurationAttr : String := "__NEOFS__EXPIRATION_DURATION"

/-- `object.AttributeFileName` (external `neofs-sdk-go` constant). -/
def attributeFileName : String := "FileName"

/-- `object.AttributeTimestamp` (external `neofs-sdk-go` constant). -/
def attributeTimestamp : String := "Timestamp"

/-! ## Upload header processing (`processHeaders`, `src/uploader/upload.go`)

`uploadContext` state relevant to header processing, plus the
`uploader.HeadersMeta` flags (`src/unnamed/part_001`) and the attribute list
accumulated by `objectCreator.addAttribute` (`src/neofs.go`). -/

/-- Environment abstracting the Go standard library calls made by
`processHeaders`: `time.Parse(time.RFC3339, ·)`, `strconv.ParseInt(·, 10, 64)`,
`time.ParseDuration`, and the current wall clock `time.Now()`.  Instants and
durations are nanoseconds.  (The source reads the clock once per expiration
header; a single per-request instant is used here.) -/
structure ParseEnv where
  parseRFC3339 : String → Option Int
  parseInt64 : String → Option Int
  parseDuration : String → Option Int
  nowNs : Int

/-- Mutable state threaded through `processHeaders`:
the context failure flag (`ctx.fail`), the expiration accumulator
(`exp.typ`, `exp.dur`), the closure variable `hdr.Value` (`hdrValue` — note
that the source assigns it only on the non-expiration path, at
`src/uploader/upload.go:332`, so the expiration branch reads a stale value),
the `HeadersMeta` encountered-flags and the attribute list collected by the
object creator. -/
structure ProcState where
  fail : Bool
  expTyp : Nat
  expDur : Int
  hdrValue : String
  metFilename : Bool
  metTimestamp : Bool
  metExpiration : Bool
  attrs : List (String × String)
deriving Repr, DecidableEq

/-- Zero value of `ProcState` (fresh `uploadContext` and locals of
`processHeaders`; `hdr.Value` starts as the empty string, the `Header`
zero value). -/
def initProcState : ProcState :=
  { fail := false, expTyp := 0, expDur := 0, hdrValue := "",
    metFilename := false, metTimestamp := false, metExpiration := false,
    attrs := [] }

/-- `expirationType` detection of `processHeaders`
(`switch exp.typCur = 0; hdr.Key` — `src/uploader/upload.go:266-273`):
`expirationRFC3339 = 1`, `expirationTimestamp = 2`, `expirationDuration = 3`. -/
def expFormType (key : String) : Nat :=
  if key = expirationRFC3339Attr then 1
  else if key = expirationTimestampAttr then 2
  else if key = expirationDurationAttr then 3
  else 0

/-- `calcSystemPrefixLen` (`src/uploader/upload.go:213-223`): the switch
compares the whole key for equality with the spellings `"Neofs-"`, `"NEOFS-"`,
`"neofs-"` and yields 6 on a match, 0 otherwise. -/
def calcSystemPrefixLen (key : String) : Nat :=
  if key = "Neofs-" ∨ key = "NEOFS-" ∨ key = "neofs-" then 6 else 0

/-- `strings.TrimPrefix(k, utils.UserAttributeHeaderPrefix)` followed by the
length comparison of `processHeaders` (`src/uploader/upload.go:259-263`):
`some` of the trimmed key when the prefix is present, `none` otherwise. -/
def trimUserPrefix (k : String) : Option String :=
  if userAttributeHeaderPrefix.data.isPrefixOf k.data then
    some (String.mk (k.data.drop userAttributeHeaderPrefix.data.length))
  else none

/-- ASCII upper-casing of `strings.ToUpper` (all keys involved are ASCII). -/
def goToUpperChar (c : Char) : Char :=
  if 'a' ≤ c ∧ c ≤ 'z' then Char.ofNat (c.toNat - 32) else c

/-- `strings.ToUpper` on an ASCII string, character-wise. -/
def goToUpper (s : String) : String := String.mk (s.data.map goToUpperChar)

/-- Character replacement of `strings.ReplaceAll(·, "-", "_")`. -/
def dashToUnderscore (c : Char) : Char := if c = '-' then '_' else c

/-- `strings.ReplaceAll(s, "-", "_")`: for the single-character pattern this is
a character map. -/
def replaceDashUnderscore (s : String) : String :=
  String.mk (s.data.map dashToUnderscore)

/-- Key rewrite of `objectCreator.WriteHeader` for a positive system prefix
length (`src/neofs.go:123-126`): replace the spelling prefix by the canonical
system prefix, turn hyphens into underscores, upper-case. -/
def forwardSystemKey (systemPrefixLen : Nat) (key : String) : String :=
  goToUpper (replaceDashUnderscore
    (systemAttributePrefix ++ String.mk (key.data.drop systemPrefixLen)))

/-- `HeadersMeta` flag updates of `objectCreator.WriteHeader`
(the `switch hdr.Key` of `src/neofs.go:129-136`). -/
def metaFlags (s : ProcState) (key : String) : ProcState :=
  if key = sysAttributeExpEpoch then { s with metExpiration := true }
  else if key = attributeFileName then { s with metFilename := true }
  else if key = attributeTimestamp then { s with metTimestamp := true }
  else s

/-- `objectCreator.WriteHeader` (`src/neofs.go:122-139`): optional system-key
rewrite, `HeadersMeta` flag updates, and `addAttribute`. -/
def writeHeader (s : ProcState) (systemPrefixLen : Nat) (key value : String) : ProcState :=
  let key := if 0 < systemPrefixLen then forwardSystemKey systemPrefixLen key else key
  let s := metaFlags s key
  { s with attrs := s.attrs ++ [(key, value)] }

/-- Candidate duration-until-expiry contributed by one expiration header form
(`src/uploader/upload.go:280-301`): RFC3339 parses an instant and subtracts
`time.Now()`; the timestamp form parses an `int64` and subtracts `time.Now()`
from `time.Unix(ts, 0)`; the duration form parses a `time.Duration`. -/
def armDur (env : ParseEnv) (t : Nat) (v : String) : Option Int :=
  if t = 1 then (env.parseRFC3339 v).map (· - env.nowNs)
  else if t = 2 then (env.parseInt64 v).map (fun ts => ts * 1000000000 - env.nowNs)
  else env.parseDuration v

/-- Body of the `VisitAll` callback of `processHeaders`
(`src/uploader/upload.go:247-335`) for one header `(k, v)`.  Note that the
expiration arms parse `hdr.Value` (`src/uploader/upload.go:284,292,298`),
which the source assigns only on the non-expiration path
(`hdr.Value = string(v)`, line 332) — so they read the value of the last
preceding ordinary prefixed header (`s.hdrValue`), not the current header's
own value `h.2`. -/
def stepHeader (env : ParseEnv) (s : ProcState) (h : String × String) : ProcState :=
  if s.fail then s
  else if h.2 = "" then s
  else
    match trimUserPrefix h.1 with
    | none => s
    | some key =>
      let t := expFormType key
      if 0 < t then
        if ¬ s.metExpiration ∧ s.expTyp ≤ t then
          match armDur env t s.hdrValue with
          | none => { s with fail := true, expTyp := t }
          | some d =>
            if d ≤ 0 then { s with fail := true, expTyp := t, expDur := d }
            else { s with expTyp := t, expDur := d }
        else s
      else
        writeHeader { s with hdrValue := h.2 } (calcSystemPrefixLen key) key h.2

/-- Result of `processHeaders` as observed by `Upload`: the final state, the
duration passed to `ObjectCreator.ExpireAfter` (when invoked), whether
`CreatedAt` was invoked, and the filename passed to `FromFile` (when
invoked). -/
structure ProcResult where
  state : ProcState
  expireCall : Option Int
  createdAtCall : Bool
  fromFileCall : Option String
deriving Repr, DecidableEq

/-- `processHeaders` (`src/uploader/upload.go:225-355`): fold the callback over
all request headers, then the post-phase of lines 337-354.  `expireOk` abstracts
success of the network interaction inside `ObjectCreator.ExpireAfter`
(modelled separately as `expireAfterEpoch`); `defaultTimestamp` is
`ctx.defaultTimestamp`; `srcFileName` is `ctx.srcPayload.FileName()`. -/
def processHeaders (env : ParseEnv) (expireOk defaultTimestamp : Bool)
    (srcFileName : String) (hs : List (String × String)) : ProcResult :=
  let s := hs.foldl (stepHeader env) initProcState
  if s.fail then
    { state := s, expireCall := none, createdAtCall := false, fromFileCall := none }
  else if ¬ s.metExpiration then
    if ¬ expireOk then
      { state := { s with fail := true }, expireCall := some s.expDur,
        createdAtCall := false, fromFileCall := none }
    else
      { state := s, expireCall := some s.expDur,
        createdAtCall := (¬ s.metTimestamp ∧ defaultTimestamp),
        fromFileCall := if ¬ s.metFilename then some srcFileName else none }
  else
    { state := s, expireCall := none,
      createdAtCall := (¬ s.metTimestamp ∧ defaultTimestamp),
      fromFileCall := if ¬ s.metFilename then some srcFileName else none }

/-! ### Basic lemmas about one header-processing step -/

theorem stepHeader_of_fail (env : ParseEnv) (s : ProcState) (h : String × String)
    (hf : s.fail = true) : stepHeader env s h = s := by
  simp [stepHeader, hf]

theorem foldl_stepHeader_of_fail (env : ParseEnv) (hs : List (String × String))
    (s : ProcState) (hf : s.fail = true) : hs.foldl (stepHeader env) s = s := by
  induction hs with
  | nil => rfl
  | cons h t ih => rw [List.foldl_cons, stepHeader_of_fail env s h hf, ih]

theorem stepHeader_empty_value (env : ParseEnv) (s : ProcState) (k : String) :
    stepHeader env s (k, "") = s := by
  cases hf : s.fail <;> simp [stepHeader, hf]

theorem metaFlags_expTyp (s : ProcState) (k : String) :
    (metaFlags s k).expTyp = s.expTyp := by
  unfold metaFlags
  repeat' split
  all_goals rfl

theorem metaFlags_expDur (s : ProcState) (k : String) :
    (metaFlags s k).expDur = s.expDur := by
  unfold metaFlags
  repeat' split
  all_goals rfl

theorem metaFlags_fail (s : ProcState) (k : String) :
    (metaFlags s k).fail = s.fail := by
  unfold metaFlags
  repeat' split
  all_goals rfl

theorem metaFlags_metExpiration_mono (s : ProcState) (k : String)
    (hm : s.metExpiration = true) : (metaFlags s k).metExpiration = true := by
  unfold metaFlags
  repeat' split
  all_goals first | exact hm | rfl

theorem writeHeader_expTyp (s : ProcState) (n : Nat) (k v : String) :
    (writeHeader s n k v).expTyp = s.expTyp := metaFlags_expTyp s _

theorem writeHeader_expDur (s : ProcState) (n : Nat) (k v : String) :
    (writeHeader s n k v).expDur = s.expDur := metaFlags_expDur s _

theorem writeHeader_fail (s : ProcState) (n : Nat) (k v : String) :
    (writeHeader s n k v).fail = s.fail := metaFlags_fail s _

theorem writeHeader_metExpiration_mono (s : ProcState) (n : Nat) (k v : String)
    (hm : s.metExpiration = true) : (writeHeader s n k v).metExpiration = true :=
  metaFlags_metExpiration_mono s _ hm

theorem stepHeader_of_unprefixed (env : ParseEnv) (s : ProcState) (h : String × String)
    (hk : trimUserPrefix h.1 = none) : stepHeader env s h = s := by
  unfold stepHeader
  cases hf : s.fail <;> by_cases hv : h.2 = "" <;> simp [hf, hv, hk]


theorem stepHeader_of_empty (env : ParseEnv) (s : ProcState) (h : String × String)
    (hv : h.2 = "") : stepHeader env s h = s := by
  unfold stepHeader
  cases hf : s.fail <;> simp [hf, hv]

/-! ### Scenario lemmas for the post-phase of `processHeaders` -/

theorem processHeaders_eq_of_fail (env : ParseEnv) (eo dt : Bool) (fn : String)
    (hs : List (String × String))
    (hf : (hs.foldl (stepHeader env) initProcState).fail = true) :
    processHeaders env eo dt fn hs =
      { state := hs.foldl (stepHeader env) initProcState, expireCall := none,
        createdAtCall := false, fromFileCall := none } := by
  unfold processHeaders
  simp [hf]

theorem processHeaders_eq_of_met (env : ParseEnv) (eo dt : Bool) (fn : String)
    (hs : List (String × String))
    (hf : (hs.foldl (stepHeader env) initProcState).fail = false)
    (hm : (hs.foldl (stepHeader env) initProcState).metExpiration = true) :
    processHeaders env eo dt fn hs =
      { state := hs.foldl (stepHeader env) initProcState, expireCall := none,
        createdAtCall := (¬ (hs.foldl (stepHeader env) initProcState).metTimestamp ∧ dt),
        fromFileCall :=
          if ¬ (hs.foldl (stepHeader env) initProcState).metFilename then some fn
          else none } := by
  unfold processHeaders
  simp [hf, hm]

theorem processHeaders_eq_of_ok (env : ParseEnv) (eo dt : Bool) (fn : String)
    (hs : List (String × String))
    (hf : (hs.foldl (stepHeader env) initProcState).fail = false)
    (hm : (hs.foldl (stepHeader env) initProcState).metExpiration = false)
    (heo : eo = true) :
    processHeaders env eo dt fn hs =
      { state := hs.foldl (stepHeader env) initProcState,
        expireCall := some (hs.foldl (stepHeader env) initProcState).expDur,
        createdAtCall := (¬ (hs.foldl (stepHeader env) initProcState).metTimestamp ∧ dt),
        fromFileCall :=
          if ¬ (hs.foldl (stepHeader env) initProcState).metFilename then some fn
          else none } := by
  unfold processHeaders
  simp [hf, hm, heo]

theorem processHeaders_eq_of_expfail (env : ParseEnv) (eo dt : Bool) (fn : String)
    (hs : List (String × String))
    (hf : (hs.foldl (stepHeader env) initProcState).fail = false)
    (hm : (hs.foldl (stepHeader env) initProcState).metExpiration = false)
    (heo : eo = false) :
    processHeaders env eo dt fn hs =
      { state := { hs.foldl (stepHeader env) initProcState with fail := true },
        expireCall := some (hs.foldl (stepHeader env) initProcState).expDur,
        createdAtCall := false, fromFileCall := none } := by
  unfold processHeaders
  simp [hf, hm, heo]

/-- Concrete stand-in for the Go standard-library parsers, used by witnesses:
the clock reads 2024-01-01T00:00:00Z; one RFC3339 instant, one Unix timestamp
and one duration literal are recognized. -/
def demoEnv : ParseEnv where
  parseRFC3339 := fun v => if v = "2024-01-01T02:00:00Z" then some 1704074400000000000 else none
  parseInt64 := fun v => if v = "1704074400" then some 1704074400 else none
  parseDuration := fun v =>
    if v = "1h" then some 3600000000000
    else if v = "2h" then some 7200000000000
    else none
  nowNs := 1704067200000000000

/-- C1 (code bug): the expiration branch of `processHeaders` parses the
stale `hdr.Value`, which is assigned only on the non-expiration path
(`src/uploader/upload.go:332`), so the effective duration is never computed
from the expiration header's own value.  A request whose only prefixed
header is a valid relative-duration form fails outright (the empty stale
value is parsed); and when an ordinary attribute header precedes the
duration form, the recorded and applied duration is the one parsed from that
other header's value ("1h"), not from the duration header's own value
("2h"). -/
theorem c1_expiration_parses_stale_value :
    (processHeaders demoEnv true false "file.bin"
        [("X-Attribute-__NEOFS__EXPIRATION_DURATION", "1h")]).state.fail = true ∧
    (processHeaders demoEnv true false "file.bin"
        [("X-Attribute-MyAttr", "1h"),
         ("X-Attribute-__NEOFS__EXPIRATION_DURATION", "2h")]).state.fail = false ∧
    (processHeaders demoEnv true false "file.bin"
        [("X-Attribute-MyAttr", "1h"),
         ("X-Attribute-__NEOFS__EXPIRATION_DURATION", "2h")]).expireCall
      = some 3600000000000 ∧
    demoEnv.parseDuration "2h" = some 7200000000000 :=
  ⟨by decide, by decide, by decide, by decide⟩

/-- C10: a request header with an empty value is skipped entirely by upload
header processing — even an expiration-form or prefixed key records no
attribute and sets no encountered flag, and the defaults of the post-phase
apply exactly as if the header were missing. -/
theorem c10_empty_value_header_skipped (env : ParseEnv) (expireOk defaultTimestamp : Bool)
    (fn k : String) (pre post : List (String × String)) :
    processHeaders env expireOk defaultTimestamp fn (pre ++ (k, "") :: post) =
      processHeaders env expireOk defaultTimestamp fn (pre ++ post) := by
  have hfold : (pre ++ (k, "") :: post).foldl (stepHeader env) initProcState =
      (pre ++ post).foldl (stepHeader env) initProcState := by
    rw [List.foldl_append, List.foldl_cons, stepHeader_empty_value, ← List.foldl_append]
  unfold processHeaders
  rw [hfold]

/-! ## Multipart payload binding (`initPayloadSource`, `src/uploader/upload.go:115-135`),
claim C2 -/

/-- One body part of the multipart request, as exposed by
`mime/multipart.Part`: its form field name and file name. -/
structure Part where
  formName : String
  fileName : String
deriving Repr, DecidableEq

/-- `initPayloadSource` (`src/uploader/upload.go:115-135`).  The Go loop calls
`reader.NextPart()` repeatedly: a part lacking a form name or file name is
skipped (`continue`), a usable part is stored into `ctx.srcPayload`, and the
loop body contains no `break` or `return` after that store — it only ends when
`NextPart` returns an error (`io.EOF` at end of body), which sets `ctx.fail`.
`parts` is the sequence of parts the reader yields before `io.EOF`; the
result is the final `(ctx.fail, ctx.srcPayload)`. -/
def initPayloadSource : List Part → Option Part → Bool × Option Part
  | [], acc => (true, acc)
  | p :: ps, acc =>
    if p.formName = "" ∨ p.fileName = "" then initPayloadSource ps acc
    else initPayloadSource ps (some p)

/-- C2 (code bug): `initPayloadSource` ends with the failure flag set for
every request — the loop can only terminate through a `NextPart` error — so
payload binding never succeeds; moreover the part left bound is the *last*
usable part, not the first.  A body with two usable parts is failed with the
second part bound. -/
theorem c2_payload_binding_always_fails :
    (∀ parts acc, (initPayloadSource parts acc).1 = true) ∧
    initPayloadSource [⟨"file", "a.txt"⟩, ⟨"file2", "b.txt"⟩] none =
      (true, some ⟨"file2", "b.txt"⟩) := by
  constructor
  · intro parts
    induction parts with
    | nil => intro acc; rfl
    | cons p ps ih =>
      intro acc
      unfold initPayloadSource
      split
      · exact ih acc
      · exact ih (some p)
  · rfl

/-! ## The tail of `Upload` after payload binding, claim C3 -/

/-- Observable outcome of the tail of `Uploader.Upload`
(`src/uploader/upload.go:177-211`): after `ReadPayloadFrom`, `Upload` runs
`processHeaders` and then — with no check of `ctx.fail` in between — invokes
`ctx.creator.Close`, which submits the object via `pool.PutObject`
(`objectCreator.Close`, `src/neofs.go:46-78`, calls `PutObject`
unconditionally). -/
structure UploadTailResult where
  headers : ProcResult
  /-- `ctx.creator.Close` (and with it `PutObject`) was invoked. -/
  closeInvoked : Bool
  /-- `ctx.fail` after the `Close` call (`Close` only ever sets it). -/
  failAfterClose : Bool
deriving Repr, DecidableEq

/-- Tail of `Uploader.Upload` from the payload-bound point
(`src/uploader/upload.go:180-188`); `putOk` abstracts the network outcome of
`PutObject`. -/
def uploadTail (env : ParseEnv) (expireOk defaultTimestamp : Bool) (fn : String)
    (hs : List (String × String)) (putOk : Bool) : UploadTailResult :=
  let r := processHeaders env expireOk defaultTimestamp fn hs
  { headers := r, closeInvoked := true,
    failAfterClose := r.state.fail || !putOk }

/-- Upload request carrying an unparseable relative-duration expiration
header. -/
def demoBadExpHeaders : List (String × String) :=
  [("X-Attribute-__NEOFS__EXPIRATION_DURATION", "bogus")]

/-- C3 (code bug): with an unparseable expiration header, header processing
sets the failure flag (the expiration 400 response has been written by
`failExpiration`), yet the upload tail still invokes `ObjectCreator.Close` —
and with it the `PutObject` network write — because `Upload` performs no
failure check between `processHeaders` and `Close`. -/
theorem c3_close_invoked_despite_expiration_failure :
    (processHeaders demoEnv true false "file.bin" demoBadExpHeaders).state.fail = true ∧
    (uploadTail demoEnv true false "file.bin" demoBadExpHeaders true).closeInvoked = true :=
  ⟨by decide, rfl⟩

/-! ## Owner-header suppression on downloads (`ResRead`, `src/downloader/neofs.go`;
`Downloader.read`, `src/unnamed/part_000:281-371`), claim C8 -/

/-- Selector tags of the download path (`src/unnamed/part_000:274-279`). -/
def byID : Nat := 1

/-- Selector tag for attribute-based selection. -/
def byAttr : Nat := 2

/-- Selector tag for filename-prefix selection. -/
def byFile : Nat := 3

/-- Data fields of `ResRead` (`src/downloader/neofs.go:17-25`). -/
structure ResRead where
  head : Bool
  selector : Nat
  status : Nat
deriving Repr, DecidableEq

/-- `ResRead.WaitingOwner` (`src/downloader/neofs.go:114-116`): the owner
header is to be emitted iff the selector tag differs from `byFile`. -/
def waitingOwner (x : ResRead) : Bool := decide (x.selector ≠ byFile)

/-- The `ResRead` value `Downloader.read` hands to `ReadNext`
(`src/unnamed/part_000:351-353`): `var res ResRead` zero value with only
`reqCtx` assigned afterwards — in particular `res.selector` is never set,
whatever selector mode the request dispatched on. -/
def downloaderReadRes : ResRead := { head := false, selector := 0, status := 0 }

/-- C8 (code bug): `Downloader.read` leaves `ResRead.selector` at its zero
value, so `WaitingOwner` answers `true` — the owner header is emitted — for
every request including filename-prefix selection; the suppression coded in
`WaitingOwner` itself (`selector != byFile`) would only fire on a `ResRead`
whose selector tag had been set to `byFile`, which never happens. -/
theorem c8_owner_header_never_suppressed :
    waitingOwner downloaderReadRes = true ∧
    downloaderReadRes.selector ≠ byFile ∧
    waitingOwner { downloaderReadRes with selector := byFile } = false :=
  ⟨by decide, by decide, by decide⟩

/-! ## Expiration-epoch computation (`objectCreator.ExpireAfter`,
`src/neofs.go:149-201`), claim C4 -/

/--`2 ^ 64`, the modulus of Go `uint64` arithmetic. -/
def U64 : Nat := 2 ^ 64

/-- Go `uint64(x)` conversion of an `int64` value (two's-complement
reinterpretation). -/
def toU64 (i : Int) : Nat := (i % (2 ^ 64 : Int)).toNat

/-- `binary.LittleEndian.Uint64` of a byte sequence (missing high bytes read
as zero, matching the zeroed 8-byte buffer of the source). -/
def leBytes : List Nat → Nat
  | [] => 0
  | b :: bs => b % 256 + 256 * leBytes bs

/-- The `EpochDuration` network parameter as read by `ExpireAfter`
(`src/neofs.go:176-192`): iteration over the network parameters stops at the
first key match, whose value bytes are copied into an 8-byte zero buffer and
decoded little-endian; when no parameter matches, the zero value remains. -/
def findEpochDuration : List (String × List Nat) → Nat
  | [] => 0
  | (k, v) :: ps =>
    if k = "EpochDuration" then leBytes (v.take 8) else findEpochDuration ps

/-- Read-only network snapshot consumed by `ExpireAfter`: current epoch
(`uint64`), per-block milliseconds (`int64`) and the raw network
parameters. -/
structure NetworkSnapshot where
  currentEpoch : Nat
  msPerBlock : Int
  params : List (String × List Nat)

/-- The epoch value attached by `ExpireAfter` (`src/neofs.go:194-200`):
`netInfo.CurrentEpoch() + uint64(expDur.Milliseconds())*durEpoch.val/uint64(netInfo.MsPerBlock())`
in Go `uint64` arithmetic (explicit `% 2 ^ 64`; `expDur.Milliseconds()`
truncates nanoseconds to milliseconds toward zero). -/
def expireAfterEpoch (net : NetworkSnapshot) (durNs : Int) : Nat :=
  (net.currentEpoch % U64 +
    toU64 (Int.tdiv durNs 1000000) * findEpochDuration net.params % U64
      / toU64 net.msPerBlock) % U64

/-- The expiration-epoch attribute added by `ExpireAfter` via `addAttribute`
(`strconv.FormatUint` of the computed epoch). -/
def expireAfterAttr (net : NetworkSnapshot) (durNs : Int) : String × String :=
  (sysAttributeExpEpoch, toString (expireAfterEpoch net durNs))

theorem findEpochDuration_absent (ps : List (String × List Nat))
    (h : ∀ p ∈ ps, p.1 ≠ "EpochDuration") : findEpochDuration ps = 0 := by
  induction ps with
  | nil => rfl
  | cons p ps ih =>
    obtain ⟨k, v⟩ := p
    unfold findEpochDuration
    rw [if_neg (h (k, v) (List.mem_cons_self _ _))]
    exact ih fun q hq => h q (List.mem_cons_of_mem _ hq)

/-- C4: for an upload whose expiration is a relative duration, the attached
expiration-epoch attribute equals
`current_epoch + floor(duration_ms * epoch_duration_param / ms_per_block)`
computed over exact integers — provided the 64-bit computation does not wrap
and `ms_per_block` is a positive `int64` — and when the `EpochDuration`
network parameter is absent the second summand is zero, so the attached epoch
equals the current epoch. -/
theorem c4_expire_after_epoch (net : NetworkSnapshot) (durNs : Int)
    (hdur : 0 < durNs) (hdur64 : durNs < 2 ^ 63)
    (hep : net.currentEpoch < U64)
    (hmpb0 : 0 < net.msPerBlock) (hmpb1 : net.msPerBlock < 2 ^ 63)
    (hprod : (Int.tdiv durNs 1000000).toNat * findEpochDuration net.params < U64)
    (hsum : net.currentEpoch +
        (Int.tdiv durNs 1000000).toNat * findEpochDuration net.params
          / net.msPerBlock.toNat < U64) :
    expireAfterEpoch net durNs =
      net.currentEpoch +
        (Int.tdiv durNs 1000000).toNat * findEpochDuration net.params
          / net.msPerBlock.toNat ∧
    expireAfterAttr net durNs =
      (sysAttributeExpEpoch,
        toString (net.currentEpoch +
          (Int.tdiv durNs 1000000).toNat * findEpochDuration net.params
            / net.msPerBlock.toNat)) ∧
    ((∀ p ∈ net.params, p.1 ≠ "EpochDuration") →
      expireAfterEpoch net durNs = net.currentEpoch) := by
  have hU : (2 ^ 64 : Int) = ((U64 : Nat) : Int) := by norm_num [U64]
  have hq0 : 0 ≤ Int.tdiv durNs 1000000 := Int.tdiv_nonneg (by omega) (by norm_num)
  have hqlt : Int.tdiv durNs 1000000 < (2 ^ 64 : Int) := by
    have h1 : Int.tdiv durNs 1000000 ≤ durNs := by
      calc Int.tdiv durNs 1000000 ≤ durNs / 1000000 := by
            rw [Int.tdiv_eq_ediv (by omega) (by norm_num)]
          _ ≤ durNs := Int.ediv_le_self _ (by omega)
    calc Int.tdiv durNs 1000000 ≤ durNs := h1
      _ < 2 ^ 63 := hdur64
      _ < 2 ^ 64 := by norm_num
  have hdm : toU64 (Int.tdiv durNs 1000000) = (Int.tdiv durNs 1000000).toNat := by
    unfold toU64
    rw [Int.emod_eq_of_lt hq0 hqlt]
  have hmp : toU64 net.msPerBlock = net.msPerBlock.toNat := by
    unfold toU64
    rw [Int.emod_eq_of_lt (by omega) (by calc net.msPerBlock < 2 ^ 63 := hmpb1
      _ < 2 ^ 64 := by norm_num)]
  have hmain : expireAfterEpoch net durNs =
      net.currentEpoch +
        (Int.tdiv durNs 1000000).toNat * findEpochDuration net.params
          / net.msPerBlock.toNat := by
    unfold expireAfterEpoch
    rw [hdm, hmp, Nat.mod_eq_of_lt hprod, Nat.mod_eq_of_lt hep, Nat.mod_eq_of_lt hsum]
  refine ⟨hmain, ?_, ?_⟩
  · unfold expireAfterAttr
    rw [hmain]
  · intro habs
    unfold expireAfterEpoch
    rw [findEpochDuration_absent net.params habs, Nat.mul_zero, Nat.zero_mod,
      Nat.zero_div, Nat.add_zero, Nat.mod_eq_of_lt hep, Nat.mod_eq_of_lt hep]

/-- Witness for `c4_expire_after_epoch`: a 1-hour duration with a network at
epoch 100, 12000 ms per block and `EpochDuration = 2`:
`100 + 3600000 * 2 / 12000 = 700`; with the parameter absent the epoch stays
100. -/
theorem c4_expire_after_epoch_witness :
    expireAfterEpoch ⟨100, 12000, [("EpochDuration", [2])]⟩ 3600000000000 =
      100 + (Int.tdiv 3600000000000 1000000).toNat *
        findEpochDuration [("EpochDuration", [2])] / (12000 : Int).toNat ∧
    ((∀ p ∈ ([("OtherParam", [9])] : List (String × List Nat)), p.1 ≠ "EpochDuration") →
      expireAfterEpoch ⟨100, 12000, [("OtherParam", [9])]⟩ 3600000000000 = 100) :=
  ⟨(c4_expire_after_epoch ⟨100, 12000, [("EpochDuration", [2])]⟩ 3600000000000
      (by decide) (by decide) (by decide) (by decide) (by decide)
      (by decide) (by decide)).1,
   fun h => ((c4_expire_after_epoch ⟨100, 12000, [("OtherParam", [9])]⟩ 3600000000000
      (by decide) (by decide) (by decide) (by decide) (by decide)
      (by decide) (by decide)).2.2) h⟩

/-! ## Zip aggregation (`Downloader.streamFiles`, `src/unnamed/part_000:434-478`),
claim C5 -/

/-- A fetched object: its ordered attributes and payload bytes. -/
structure StoredObject where
  attrs : List (String × String)
  payload : List Nat
deriving Repr, DecidableEq

/-- `getFilename` (`src/unnamed/part_000:480-488`): value of the first
`FileName` attribute, empty string when absent. -/
def getFilename (obj : StoredObject) : String :=
  match obj.attrs.find? (fun a => a.1 == attributeFileName) with
  | some a => a.2
  | none => ""

/-- Operations applied to the zip writer by `streamFiles`. -/
inductive ZipEvent
  | createEntry (name : String) (deflate : Bool)
  | writeData (bytes : List Nat)
  | flush
  | closeArchive
deriving Repr, DecidableEq

/-- `Downloader.streamFiles` (`src/unnamed/part_000:434-478`) as the sequence
of zip-writer operations and the success flag.  `fetch` abstracts
`pool.GetObject` (`none` = fetch error, which aborts and returns the error);
objects are processed strictly one at a time — create the entry named by the
object's filename attribute with the configured compression, copy the
payload, flush — and `zipWriter.Close()` runs only after the loop finished. -/
def streamFiles (fetch : Nat → Option StoredObject) (deflate : Bool) :
    List Nat → List ZipEvent × Bool
  | [] => ([ZipEvent.closeArchive], true)
  | id :: ids =>
    match fetch id with
    | none => ([], false)
    | some obj =>
      let rest := streamFiles fetch deflate ids
      (ZipEvent.createEntry (getFilename obj) deflate ::
        ZipEvent.writeData obj.payload :: ZipEvent.flush :: rest.1, rest.2)

/-- Names of the archive entries opened in a zip-writer trace, in order. -/
def entryNames (evs : List ZipEvent) : List String :=
  evs.filterMap fun e =>
    match e with
    | ZipEvent.createEntry n _ => some n
    | _ => none

/-- C5: when every matched object is fetched successfully, the archive trace
contains exactly one entry per matched identifier, in selection order, each
named by that object's filename attribute (empty when absent), and the single
`closeArchive` is the final event; and whenever streaming fails, the archive
is never closed. -/
theorem c5_zip_entries (fetch : Nat → Option StoredObject) (deflate : Bool)
    (ids : List Nat) :
    ((∀ i ∈ ids, (fetch i).isSome) →
      ∃ evs, streamFiles fetch deflate ids = (evs ++ [ZipEvent.closeArchive], true) ∧
        entryNames evs = ids.map (fun i => getFilename ((fetch i).getD ⟨[], []⟩)) ∧
        ZipEvent.closeArchive ∉ evs) ∧
    ((streamFiles fetch deflate ids).2 = false →
      ZipEvent.closeArchive ∉ (streamFiles fetch deflate ids).1) := by
  induction ids with
  | nil =>
    refine ⟨fun _ => ⟨[], rfl, rfl, by simp⟩, fun hfalse => ?_⟩
    exact absurd hfalse (by simp [streamFiles])
  | cons i ids ih =>
    constructor
    · intro hok
      obtain ⟨obj, hobj⟩ := Option.isSome_iff_exists.mp (hok i (by simp))
      obtain ⟨evs, h1, h2, h3⟩ := ih.1 fun j hj => hok j (by simp [hj])
      refine ⟨ZipEvent.createEntry (getFilename obj) deflate ::
        ZipEvent.writeData obj.payload :: ZipEvent.flush :: evs, ?_, ?_, ?_⟩
      · unfold streamFiles
        rw [hobj]
        simp [h1]
      · simp only [entryNames, List.filterMap_cons] at h2 ⊢
        simp [hobj, h2]
      · simp [h3]
    · intro hfalse
      unfold streamFiles at hfalse ⊢
      cases hobj : fetch i with
      | none => simp [hobj]
      | some obj =>
        rw [hobj] at hfalse
        simp only at hfalse
        have hclose := ih.2 hfalse
        simp [hclose]

/-- Sample object store for the zip witness: object 1 has a filename
attribute, object 2 has none, object 3 does not exist. -/
def demoFetch : Nat → Option StoredObject := fun i =>
  if i = 1 then some ⟨[("FileName", "report1.txt")], [10, 20]⟩
  else if i = 2 then some ⟨[("Timestamp", "5")], [30]⟩
  else none

/-- Witness for `c5_zip_entries`: both matched objects are fetched, so the
trace is two entries (named `report1.txt` and `""`) followed by the final
close. -/
theorem c5_zip_entries_witness :
    ∃ evs, streamFiles demoFetch false [1, 2] = (evs ++ [ZipEvent.closeArchive], true) ∧
      entryNames evs = [1, 2].map (fun i => getFilename ((demoFetch i).getD ⟨[], []⟩)) ∧
      ZipEvent.closeArchive ∉ evs :=
  (c5_zip_entries demoFetch false [1, 2]).1 (by decide)

/-! ## Content-type sniffer (`detector` / `errReader`,
`src/unnamed/part_000:27-95`), claim C6 -/

/-- `contentTypeDetectSize` (`src/unnamed/part_000:68`). -/
def contentTypeDetectSize : Nat := 512

/-- A Go `error` result of a `Read`: `io.EOF` or another error code. -/
inductive GoErr
  | eof
  | other (code : Nat)
deriving Repr, DecidableEq

/-- State of an `errReader` (`src/unnamed/part_000:43-66`): the buffered
bytes, the stored error to surface at their end (`nil` = `none`), and the read
offset. -/
structure ErrReader where
  data : List Nat
  err : Option GoErr
  offset : Nat
deriving Repr, DecidableEq

/-- `errReader.Read` with a destination buffer of size `m`
(`src/unnamed/part_000:56-66`): at or past the end yield `(0, io.EOF)`;
otherwise copy up to `m` bytes and return the stored error exactly when this
read reaches the end. -/
def errReaderRead (r : ErrReader) (m : Nat) : List Nat × Option GoErr × ErrReader :=
  if r.data.length ≤ r.offset then ([], some GoErr.eof, r)
  else if r.data.length ≤ r.offset + ((r.data.drop r.offset).take m).length then
    ((r.data.drop r.offset).take m, r.err,
      { r with offset := r.offset + ((r.data.drop r.offset).take m).length })
  else
    ((r.data.drop r.offset).take m, none,
      { r with offset := r.offset + ((r.data.drop r.offset).take m).length })

/-- Bytes obtained by reading an `errReader` to completion with buffers of
size `m`, stopping at the first non-`nil` error result (how `io.MultiReader`
consumes its first reader, advancing past it on `io.EOF`).  `fuel` bounds the
number of `Read` calls. -/
def errReaderDrain : Nat → ErrReader → Nat → List Nat × Option GoErr
  | 0, _, _ => ([], none)
  | fuel + 1, r, m =>
    match errReaderRead r m with
    | (chunk, some e, _) => (chunk, some e)
    | (chunk, none, r') =>
      (chunk ++ (errReaderDrain fuel r' m).1, (errReaderDrain fuel r' m).2)

theorem errReaderRead_eof (r : ErrReader) (m : Nat) (h : r.data.length ≤ r.offset) :
    errReaderRead r m = ([], some GoErr.eof, r) := by
  unfold errReaderRead
  rw [if_pos h]

theorem errReaderDrain_succ_of_none (fuel : Nat) (r : ErrReader) (m : Nat)
    (chunk : List Nat) (r' : ErrReader)
    (h : errReaderRead r m = (chunk, none, r')) :
    errReaderDrain (fuel + 1) r m =
      (chunk ++ (errReaderDrain fuel r' m).1, (errReaderDrain fuel r' m).2) := by
  conv_lhs => rw [errReaderDrain]
  rw [h]

theorem errReaderDrain_succ_of_err (fuel : Nat) (r : ErrReader) (m : Nat)
    (chunk : List Nat) (e : GoErr) (r' : ErrReader)
    (h : errReaderRead r m = (chunk, some e, r')) :
    errReaderDrain (fuel + 1) r m = (chunk, some e) := by
  conv_lhs => rw [errReaderDrain]
  rw [h]

/-- Draining an `errReader` with a `nil` stored error and positive buffers
yields exactly its bytes from the current offset, ending in `io.EOF`. -/
theorem errReaderDrain_complete (m : Nat) (hm : 0 < m) (data : List Nat) :
    ∀ fuel off, data.length - off + 2 ≤ fuel →
      errReaderDrain fuel ⟨data, none, off⟩ m = (data.drop off, some GoErr.eof) := by
  intro fuel
  induction fuel with
  | zero => intro off h; omega
  | succ fuel ih =>
    intro off hfuel
    by_cases hend : data.length ≤ off
    · rw [errReaderDrain_succ_of_err fuel _ m [] GoErr.eof _
        (errReaderRead_eof ⟨data, none, off⟩ m hend)]
      rw [@List.drop_eq_nil_of_le _ data off hend]
    · have hlen : ((data.drop off).take m).length = min m (data.length - off) := by
        simp [List.length_take, List.length_drop]
      by_cases hend2 : data.length ≤ off + ((data.drop off).take m).length
      · have hread : errReaderRead ⟨data, none, off⟩ m =
            ((data.drop off).take m, none,
              ⟨data, none, off + ((data.drop off).take m).length⟩) := by
          unfold errReaderRead
          rw [if_neg hend, if_pos hend2]
        have hchunk : (data.drop off).take m = data.drop off := by
          apply List.take_of_length_le
          rw [List.length_drop]
          omega
        rw [errReaderDrain_succ_of_none fuel _ m _ _ hread,
          ih (off + ((data.drop off).take m).length) (by omega)]
        simp only [Prod.mk.injEq]
        refine ⟨?_, trivial⟩
        rw [@List.drop_eq_nil_of_le _ data (off + ((data.drop off).take m).length) hend2,
          List.append_nil, hchunk]
      · have hread : errReaderRead ⟨data, none, off⟩ m =
            ((data.drop off).take m, none,
              ⟨data, none, off + ((data.drop off).take m).length⟩) := by
          unfold errReaderRead
          rw [if_neg hend]
          rw [if_neg hend2]
        have hm2 : ((data.drop off).take m).length = m := by
          rw [hlen]
          omega
        rw [errReaderDrain_succ_of_none fuel _ m _ _ hread,
          ih (off + ((data.drop off).take m).length) (by rw [hm2]; omega)]
        simp only [Prod.mk.injEq]
        refine ⟨?_, trivial⟩
        rw [hm2, ← List.drop_drop, List.take_append_drop]

/-- Outcome of `detector.Detect` (`src/unnamed/part_000:82-91`) in the
error-free case required by the claim: the single `Read` into the 512-byte
buffer returned the first `n` bytes of the payload, the buffer was truncated
to them (`d.data = d.data[:n]`), `http.DetectContentType` ran on exactly those
bytes, and `d.err` stayed `nil`. -/
structure DetectorState where
  peeked : List Nat
  rest : List Nat
  err : Option GoErr
deriving Repr, DecidableEq

/-- `detector.Detect` in the error-free case, with `n` the byte count the
wrapped reader's `Read` returned (`n ≤ 512`, and `n = payload.length` when
the payload is shorter than the buffer). -/
def detectorDetect (payload : List Nat) (n : Nat) : DetectorState :=
  { peeked := payload.take n, rest := payload.drop n, err := none }

/-- `detector.MultiReader` (`src/unnamed/part_000:93-95`) in the error-free
case: the bytes of `io.MultiReader(newReader(d.data, d.err), d.Reader)` — the
`errReader` holding the peeked bytes drained to its end, followed by the
remainder of the wrapped reader. -/
def detectorReconstructed (payload : List Nat) (n m fuel : Nat) : List Nat :=
  (errReaderDrain fuel ⟨(detectorDetect payload n).peeked, none, 0⟩ m).1 ++
    (detectorDetect payload n).rest

/-- C6: when no read error other than end-of-stream occurs, the reconstructed
stream is byte-identical to the original payload — for every payload length
(0, shorter than 512, exactly 512, longer) and every first-read length
`n ≤ 512`, consumer buffer size and sufficient read count — and the
classifier input is the peeked prefix, which is the whole payload when the
payload is shorter than the peek size. -/
theorem c6_sniffer_reconstruction (payload : List Nat) (n m fuel : Nat)
    (hn : n ≤ contentTypeDetectSize) (hm : 0 < m)
    (hfuel : payload.length + 2 ≤ fuel) :
    detectorReconstructed payload n m fuel = payload ∧
    (detectorDetect payload n).peeked = payload.take n ∧
    (payload.length ≤ n → (detectorDetect payload n).peeked = payload) := by
  refine ⟨?_, rfl, fun hle => List.take_of_length_le hle⟩
  unfold detectorReconstructed
  show (errReaderDrain fuel ⟨payload.take n, none, 0⟩ m).1 ++ payload.drop n = payload
  rw [errReaderDrain_complete m hm (payload.take n) fuel 0
    (by
      have : (payload.take n).length ≤ payload.length := by
        rw [List.length_take]
        omega
      omega)]
  show (payload.take n).drop 0 ++ payload.drop n = payload
  rw [List.drop_zero, List.take_append_drop]

/-- Witness for `c6_sniffer_reconstruction` at a 600-byte payload (longer
than the 512-byte peek size), first read of 512 bytes, buffer size 7. -/
theorem c6_sniffer_reconstruction_witness :
    detectorReconstructed (List.range 600) 512 7 602 = List.range 600 ∧
    (detectorDetect (List.range 600) 512).peeked = (List.range 600).take 512 ∧
    ((List.range 600).length ≤ 512 →
      (detectorDetect (List.range 600) 512).peeked = List.range 600) :=
  c6_sniffer_reconstruction (List.range 600) 512 7 602 (by decide) (by decide)
    (by simp)

/-! ## Bearer-token resolution (`src/tokens/bearer-token.go`), claim C7 -/

/-- Value selection of `ReadBearer` (`src/tokens/bearer-token.go:106-113`):
the `Authorization` header when it carries the `"Bearer "` prefix, otherwise
the `Bearer` cookie (`none` = absent). -/
def readBearerValue (auth cookie : Option String) : Option String :=
  match auth with
  | some a =>
    if "Bearer ".data.isPrefixOf a.data then some (String.mk (a.data.drop 7))
    else cookie
  | none => cookie

/-- `ReadBearer` (`src/tokens/bearer-token.go:103-127`): `-1` when the
selected value fails base64 decoding, `0` when no value is present, `1` with
the decoded bytes otherwise.  `decode` abstracts
`base64.StdEncoding.Decode`. -/
def readBearer (decode : String → Option (List Nat)) (auth cookie : Option String) :
    Int × List Nat :=
  match readBearerValue auth cookie with
  | none => (0, [])
  | some s =>
    match decode s with
    | none => (-1, [])
    | some bs => (1, bs)

/-- Outcome of the token-resolution step for the request. -/
inductive AuthOutcome
  | rejected (msg : String)
  | anonymous
  | withToken (tok : String)
deriving Repr, DecidableEq

/-- Token-resolution step of `Uploader.Upload`
(`src/uploader/upload.go:156-166`; `Downloader.read` performs the same switch,
`src/unnamed/part_000:296-306`): `-1` → 400 rejection; `1` → deserialize via
`ObjectCreator.UseBearerToken` (`objectCreator.UseBearerToken`,
`src/neofs.go:80-93`), failure → 400 rejection; `0` → anonymous processing
under the default owner.  `unmarshal` abstracts
`token.BearerToken.UnmarshalJSON` (yielding the issuer). -/
def uploadAuthStep (decode : String → Option (List Nat))
    (unmarshal : List Nat → Option String) (auth cookie : Option String) : AuthOutcome :=
  let r := readBearer decode auth cookie
  if r.1 = -1 then AuthOutcome.rejected "incorrect bearer token header"
  else if r.1 = 1 then
    match unmarshal r.2 with
    | none => AuthOutcome.rejected "incorrect bearer token JSON"
    | some tok => AuthOutcome.withToken tok
  else AuthOutcome.anonymous

/-- `BearerTokenFromHeader` (`src/tokens/bearer-token.go:29-38`): requires the
`"Bearer"` prefix (without space), trims `"Bearer "` when present, drops an
empty remainder. -/
def bearerTokenFromHeader (auth : Option String) : Option String :=
  match auth with
  | none => none
  | some a =>
    if "Bearer".data.isPrefixOf a.data then
      if (if "Bearer ".data.isPrefixOf a.data then String.mk (a.data.drop 7) else a) = ""
      then none
      else some (if "Bearer ".data.isPrefixOf a.data then String.mk (a.data.drop 7) else a)
    else none

/-- `BearerTokenFromCookie` (`src/tokens/bearer-token.go:41-48`). -/
def bearerTokenFromCookie (cookie : Option String) : Option String :=
  match cookie with
  | none => none
  | some c => if c = "" then none else some c

/-- The source loop of `fetchBearerToken` (`src/tokens/bearer-token.go:80-96`):
skip absent sources, record decode/deserialization failures and continue,
return the first successfully parsed token with no error; when the candidates
are exhausted return the recorded failure flag. -/
def fetchLoop (decode : String → Option (List Nat))
    (unmarshal : List Nat → Option String) :
    List (Option String) → Bool → Option String × Bool
  | [], lastErr => (none, lastErr)
  | none :: rest, lastErr => fetchLoop decode unmarshal rest lastErr
  | some s :: rest, lastErr =>
    match decode s with
    | none => fetchLoop decode unmarshal rest true
    | some bs =>
      match unmarshal bs with
      | none => fetchLoop decode unmarshal rest true
      | some tok => (some tok, false)

/-- `fetchBearerToken` (`src/tokens/bearer-token.go:69-97`): header extractor
first, then cookie extractor.  Result `(token?, errored)`; the caller
(`StoreBearerToken` users) rejects the request iff `errored`. -/
def fetchBearerToken (decode : String → Option (List Nat))
    (unmarshal : List Nat → Option String) (auth cookie : Option String) :
    Option String × Bool :=
  fetchLoop decode unmarshal
    [bearerTokenFromHeader auth, bearerTokenFromCookie cookie] false

/-- A presented bearer value that fails: base64 decoding fails, or decoding
succeeds and deserialization fails. -/
def sourceFails (decode : String → Option (List Nat))
    (unmarshal : List Nat → Option String) (s : String) : Prop :=
  decode s = none ∨ ∃ bs, decode s = some bs ∧ unmarshal bs = none

theorem fetchLoop_fail_head (decode : String → Option (List Nat))
    (unmarshal : List Nat → Option String) (s : String)
    (rest : List (Option String)) (lastErr : Bool)
    (h : sourceFails decode unmarshal s) :
    fetchLoop decode unmarshal (some s :: rest) lastErr =
      fetchLoop decode unmarshal rest true := by
  rcases h with h | ⟨bs, h1, h2⟩
  · conv_lhs => rw [fetchLoop]
    simp only [h]
  · conv_lhs => rw [fetchLoop]
    simp only [h1, h2]

/-- Base64 stand-in used by the concrete scenarios: only `"good"` decodes. -/
def demoDecode : String → Option (List Nat) := fun s =>
  if s = "good" then some [1, 2] else none

/-- Token-deserialization stand-in: only the bytes of `"good"` parse. -/
def demoUnmarshal : List Nat → Option String := fun bs =>
  if bs = [1, 2] then some "issuer1" else none

/-- C7 counterexample: a request presenting a malformed bearer value in the
`Authorization` header (`Bearer !!!` fails base64 decoding) together with a
valid `Bearer` cookie is not rejected by the legacy resolver
`fetchBearerToken` (cited by the claim): the loop records the failure, falls
back to the cookie and returns its token with no error, so the request is
served rather than rejected with a client error. -/
theorem c7_counterexample_fallback_not_rejected :
    bearerTokenFromHeader (some "Bearer !!!") = some "!!!" ∧
    demoDecode "!!!" = none ∧
    fetchBearerToken demoDecode demoUnmarshal (some "Bearer !!!") (some "good") =
      (some "issuer1", false) :=
  ⟨by decide, by decide, by decide⟩

/-- C7 (amended): `ReadBearer` — the resolver used by `Upload` and
`Downloader.read` — answers `-1` (malformed, distinct from `0` = absent)
whenever the selected bearer value fails base64 decoding, and the caller then
rejects the request with a client error, likewise when deserialization fails;
the legacy `fetchBearerToken` records such failures but keeps trying later
sources, so its caller rejects only when no presented source yields a valid
token — a malformed header value with a valid cookie is served with the
cookie token. -/
theorem c7_bearer_malformed_rejected (decode : String → Option (List Nat))
    (unmarshal : List Nat → Option String) (auth cookie : Option String) :
    (∀ s, readBearerValue auth cookie = some s → decode s = none →
      readBearer decode auth cookie = (-1, []) ∧
      uploadAuthStep decode unmarshal auth cookie =
        AuthOutcome.rejected "incorrect bearer token header") ∧
    (∀ s bs, readBearerValue auth cookie = some s → decode s = some bs →
      unmarshal bs = none →
      uploadAuthStep decode unmarshal auth cookie =
        AuthOutcome.rejected "incorrect bearer token JSON") ∧
    (readBearerValue auth cookie = none → readBearer decode auth cookie = (0, [])) ∧
    (∀ s, bearerTokenFromHeader auth = some s → sourceFails decode unmarshal s →
      ∀ t bs tok, bearerTokenFromCookie cookie = some t → decode t = some bs →
        unmarshal bs = some tok →
        fetchBearerToken decode unmarshal auth cookie = (some tok, false)) ∧
    ((∀ s, (bearerTokenFromHeader auth = some s ∨ bearerTokenFromCookie cookie = some s) →
        sourceFails decode unmarshal s) →
      (bearerTokenFromHeader auth).isSome ∨ (bearerTokenFromCookie cookie).isSome →
      fetchBearerToken decode unmarshal auth cookie = (none, true)) := by
  refine ⟨?_, ?_, ?_, ?_, ?_⟩
  · intro s hs hdec
    have hr : readBearer decode auth cookie = (-1, []) := by
      unfold readBearer
      simp only [hs, hdec]
    refine ⟨hr, ?_⟩
    unfold uploadAuthStep
    simp [hr]
  · intro s bs hs hdec hun
    have hr : readBearer decode auth cookie = (1, bs) := by
      unfold readBearer
      simp only [hs, hdec]
    unfold uploadAuthStep
    simp [hr, hun]
  · intro hnone
    unfold readBearer
    simp only [hnone]
  · intro s hs hfail t bs tok ht hdec hun
    unfold fetchBearerToken
    rw [hs, ht, fetchLoop_fail_head decode unmarshal s _ false hfail]
    conv_lhs => rw [fetchLoop]
    simp only [hdec, hun]
  · intro hall hsome
    unfold fetchBearerToken
    cases hh : bearerTokenFromHeader auth with
    | some s =>
      rw [fetchLoop_fail_head decode unmarshal s _ false (hall s (Or.inl hh))]
      cases hc : bearerTokenFromCookie cookie with
      | some t =>
        rw [fetchLoop_fail_head decode unmarshal t [] true (hall t (Or.inr hc))]
        rfl
      | none =>
        rfl
    | none =>
      cases hc : bearerTokenFromCookie cookie with
      | some t =>
        show fetchLoop decode unmarshal [some t] false = (none, true)
        rw [fetchLoop_fail_head decode unmarshal t [] false (hall t (Or.inr hc))]
        rfl
      | none =>
        exact absurd hsome (by simp [hh, hc])

/-- Witness for `c7_bearer_malformed_rejected`: a malformed Authorization
value with no cookie is reported `-1` and rejected; and with both sources
failing, the legacy resolver reports the error. -/
theorem c7_bearer_malformed_rejected_witness :
    (readBearer demoDecode (some "Bearer !!!") none = (-1, []) ∧
      uploadAuthStep demoDecode demoUnmarshal (some "Bearer !!!") none =
        AuthOutcome.rejected "incorrect bearer token header") ∧
    fetchBearerToken demoDecode demoUnmarshal (some "Bearer !!!") none = (none, true) :=
  ⟨(c7_bearer_malformed_rejected demoDecode demoUnmarshal (some "Bearer !!!") none).1
      "!!!" (by decide) (by decide),
   (c7_bearer_malformed_rejected demoDecode demoUnmarshal (some "Bearer !!!") none).2.2.2.2
      (by
        intro s hs
        rcases hs with hs | hs
        · have he : bearerTokenFromHeader (some "Bearer !!!") = some "!!!" := by decide
          rw [he] at hs
          cases hs
          exact Or.inl (by decide)
        · simp [bearerTokenFromCookie] at hs)
      (by decide)⟩

/-! ## System attribute key transform round trip (claim C9)

Upload side: the rewrite of `objectCreator.WriteHeader` for a system-spelled
key (`forwardSystemKey`, from `src/neofs.go:123-126`).  Download side:
`systemBackwardTranslator` (`src/unnamed/part_000:197-215`). -/

/-- ASCII lower-casing of `strings.ToLower`. -/
def goToLowerChar (c : Char) : Char :=
  if 'A' ≤ c ∧ c ≤ 'Z' then Char.ofNat (c.toNat + 32) else c

/-- `unicode.IsLetter` restricted to ASCII (all keys involved are ASCII). -/
def isAsciiLetter (c : Char) : Bool :=
  decide (('a' ≤ c ∧ c ≤ 'z') ∨ ('A' ≤ c ∧ c ≤ 'Z'))

/-- `strings.Title` on ASCII input: upper-case every letter that follows a
non-letter (or the start); `prev` records whether the previous character was
a letter. -/
def goTitleAux (prev : Bool) : List Char → List Char
  | [] => []
  | c :: cs =>
    (if ¬ prev ∧ isAsciiLetter c then goToUpperChar c else c) ::
      goTitleAux (isAsciiLetter c) cs

/-- `strings.Title` on ASCII input. -/
def goTitle (l : List Char) : List Char := goTitleAux false l

/-- `strings.Split(·, "_")` on character lists. -/
def splitUnderscore : List Char → List (List Char)
  | [] => [[]]
  | c :: cs =>
    if c = '_' then [] :: splitUnderscore cs
    else
      match splitUnderscore cs with
      | [] => [[c]]
      | p :: ps => (c :: p) :: ps

/-- The `strings.Builder` loop of `systemBackwardTranslator`
(`src/unnamed/part_000:205-212`): write each piece, then `"-"` unless it is
the last one. -/
def joinDash : List (List Char) → List Char
  | [] => []
  | [w] => w
  | w :: ws => w ++ '-' :: joinDash ws

/-- Junction with `"_"`, the shape taken by a hyphen-joined key after the
forward transform. -/
def joinUnderscore : List (List Char) → List Char
  | [] => []
  | [w] => w
  | w :: ws => w ++ '_' :: joinUnderscore ws

/-- `strings.TrimPrefix` on character lists. -/
def trimPrefixL (p l : List Char) : List Char :=
  if p.isPrefixOf l then l.drop p.length else l

/-- `systemBackwardTranslator` (`src/unnamed/part_000:197-215`): trim the
canonical `__NEOFS__` prefix, split on underscores, title-case each lowered
piece, join with hyphens after a `Neofs-` prefix. -/
def systemBackwardTranslator (key : String) : String :=
  String.mk ("Neofs-".data ++
    joinDash ((splitUnderscore (trimPrefixL systemAttributePrefix.data key.data)).map
      fun s => goTitle (s.map goToLowerChar)))

/-- A Title-Case, letters-only word: an upper-case ASCII letter followed by
lower-case ASCII letters. -/
def titleWord : List Char → Prop
  | [] => False
  | c :: cs => ('A' ≤ c ∧ c ≤ 'Z') ∧ ∀ x ∈ cs, 'a' ≤ x ∧ x ≤ 'z'

/-! ### Character-level case lemmas -/

theorem upper_lower_of_lower (c : Char) (h1 : 'a' ≤ c) (h2 : c ≤ 'z') :
    ('A' ≤ goToUpperChar c ∧ goToUpperChar c ≤ 'Z') ∧
      goToLowerChar (goToUpperChar c) = c := by
  have hn1 : 97 ≤ c.toNat := h1
  have hn2 : c.toNat ≤ 122 := h2
  have hh := Char.ofNat_toNat c
  rw [← hh]
  set n := c.toNat with hn
  interval_cases n <;> decide

theorem lower_upper_of_upper (c : Char) (h1 : 'A' ≤ c) (h2 : c ≤ 'Z') :
    ('a' ≤ goToLowerChar c ∧ goToLowerChar c ≤ 'z') ∧
      goToUpperChar (goToLowerChar c) = c := by
  have hn1 : 65 ≤ c.toNat := h1
  have hn2 : c.toNat ≤ 90 := h2
  have hh := Char.ofNat_toNat c
  rw [← hh]
  set n := c.toNat with hn
  interval_cases n <;> decide

theorem goToUpperChar_of_upper (c : Char) (h1 : 'A' ≤ c) (h2 : c ≤ 'Z') :
    goToUpperChar c = c := by
  unfold goToUpperChar
  rw [if_neg]
  rintro ⟨ha, -⟩
  have h1' : (97 : Nat) ≤ c.toNat := ha
  have h2' : c.toNat ≤ 90 := h2
  omega

theorem isAsciiLetter_of_upper (c : Char) (h1 : 'A' ≤ c) (h2 : c ≤ 'Z') :
    isAsciiLetter c = true := decide_eq_true (Or.inr ⟨h1, h2⟩)

theorem isAsciiLetter_of_lower (c : Char) (h1 : 'a' ≤ c) (h2 : c ≤ 'z') :
    isAsciiLetter c = true := decide_eq_true (Or.inl ⟨h1, h2⟩)

theorem upper_ne_underscore (c : Char) (h1 : 'A' ≤ c) (h2 : c ≤ 'Z') : c ≠ '_' := by
  intro he
  rw [he] at h2
  exact absurd (show (95 : Nat) ≤ 90 from h2) (by omega)

theorem upper_ne_dash (c : Char) (h1 : 'A' ≤ c) (h2 : c ≤ 'Z') : c ≠ '-' := by
  intro he
  rw [he] at h1
  exact absurd (show (65 : Nat) ≤ 45 from h1) (by omega)

theorem lower_ne_dash (c : Char) (h1 : 'a' ≤ c) (h2 : c ≤ 'z') : c ≠ '-' := by
  intro he
  rw [he] at h1
  exact absurd (show (97 : Nat) ≤ 45 from h1) (by omega)

/-! ### Word- and list-level lemmas -/

/-- Upper-casing a Title-Case word yields a word of upper-case letters. -/
theorem upperWord_shape (w : List Char) (hw : titleWord w) :
    ∀ x ∈ w.map goToUpperChar, 'A' ≤ x ∧ x ≤ 'Z' := by
  match w with
  | [] => exact absurd hw (fun h => h)
  | c :: cs =>
    obtain ⟨⟨h1, h2⟩, hcs⟩ := hw
    intro x hx
    rw [List.map_cons, List.mem_cons] at hx
    rcases hx with hx | hx
    · rw [hx, goToUpperChar_of_upper c h1 h2]
      exact ⟨h1, h2⟩
    · obtain ⟨y, hy, hyx⟩ := List.mem_map.mp hx
      obtain ⟨hy1, hy2⟩ := hcs y hy
      rw [← hyx]
      exact (upper_lower_of_lower y hy1 hy2).1

theorem dash_map_id (w : List Char) (h : ∀ c ∈ w, c ≠ '-') :
    w.map dashToUnderscore = w := by
  induction w with
  | nil => rfl
  | cons c cs ih =>
    rw [List.map_cons, ih fun x hx => h x (List.mem_cons_of_mem c hx)]
    unfold dashToUnderscore
    rw [if_neg (h c (List.mem_cons_self c cs))]

theorem map_dash_joinDash (ws : List (List Char))
    (h : ∀ w ∈ ws, ∀ c ∈ w, c ≠ '-') :
    (joinDash ws).map dashToUnderscore = joinUnderscore ws := by
  match ws with
  | [] => rfl
  | [w] =>
    show (joinDash [w]).map dashToUnderscore = joinUnderscore [w]
    unfold joinDash joinUnderscore
    exact dash_map_id w (h w (List.mem_cons_self w []))
  | w :: w' :: ws =>
    show (w ++ '-' :: joinDash (w' :: ws)).map dashToUnderscore
      = w ++ '_' :: joinUnderscore (w' :: ws)
    rw [List.map_append, List.map_cons,
      dash_map_id w (h w (List.mem_cons_self w _)),
      map_dash_joinDash (w' :: ws) fun v hv => h v (List.mem_cons_of_mem w hv)]
    rfl

theorem map_upper_joinUnderscore (ws : List (List Char)) :
    (joinUnderscore ws).map goToUpperChar
      = joinUnderscore (ws.map (List.map goToUpperChar)) := by
  match ws with
  | [] => rfl
  | [w] => rfl
  | w :: w' :: ws =>
    show (w ++ '_' :: joinUnderscore (w' :: ws)).map goToUpperChar
      = w.map goToUpperChar ++ '_' ::
          joinUnderscore ((w' :: ws).map (List.map goToUpperChar))
    rw [List.map_append, List.map_cons, map_upper_joinUnderscore (w' :: ws)]
    rfl

theorem splitUnderscore_no_underscore (w : List Char) (h : ∀ c ∈ w, c ≠ '_') :
    splitUnderscore w = [w] := by
  induction w with
  | nil => rfl
  | cons c cs ih =>
    unfold splitUnderscore
    rw [if_neg (h c (List.mem_cons_self c cs)),
      ih fun x hx => h x (List.mem_cons_of_mem c hx)]

theorem splitUnderscore_append (w l : List Char) (h : ∀ c ∈ w, c ≠ '_') :
    splitUnderscore (w ++ '_' :: l) = w :: splitUnderscore l := by
  induction w with
  | nil =>
    show splitUnderscore ('_' :: l) = [] :: splitUnderscore l
    conv_lhs => rw [splitUnderscore]
    rw [if_pos rfl]
  | cons c cs ih =>
    show splitUnderscore (c :: (cs ++ '_' :: l)) = (c :: cs) :: splitUnderscore l
    conv_lhs => rw [splitUnderscore]
    rw [if_neg (h c (List.mem_cons_self c cs)),
      ih fun x hx => h x (List.mem_cons_of_mem c hx)]

theorem splitUnderscore_joinUnderscore (ws : List (List Char)) (hne : ws ≠ [])
    (h : ∀ w ∈ ws, ∀ c ∈ w, c ≠ '_') :
    splitUnderscore (joinUnderscore ws) = ws := by
  match ws with
  | [] => exact absurd rfl hne
  | [w] =>
    show splitUnderscore (joinUnderscore [w]) = [w]
    unfold joinUnderscore
    exact splitUnderscore_no_underscore w (h w (List.mem_cons_self w []))
  | w :: w' :: ws =>
    show splitUnderscore (w ++ '_' :: joinUnderscore (w' :: ws)) = w :: w' :: ws
    rw [splitUnderscore_append w _ (h w (List.mem_cons_self w _)),
      splitUnderscore_joinUnderscore (w' :: ws) (by simp)
        fun v hv => h v (List.mem_cons_of_mem w hv)]

theorem goTitleAux_true_letters (cs : List Char)
    (h : ∀ x ∈ cs, isAsciiLetter x = true) : goTitleAux true cs = cs := by
  induction cs with
  | nil => rfl
  | cons c cs ih =>
    unfold goTitleAux
    rw [h c (List.mem_cons_self c cs)]
    simp only [not_true, false_and, if_false]
    rw [ih fun x hx => h x (List.mem_cons_of_mem c hx)]

theorem lower_upper_map_id (cs : List Char) (h : ∀ x ∈ cs, 'a' ≤ x ∧ x ≤ 'z') :
    (cs.map goToUpperChar).map goToLowerChar = cs := by
  induction cs with
  | nil => rfl
  | cons x xs ih =>
    obtain ⟨hx1, hx2⟩ := h x (List.mem_cons_self x xs)
    rw [List.map_cons, List.map_cons, (upper_lower_of_lower x hx1 hx2).2,
      ih fun y hy => h y (List.mem_cons_of_mem x hy)]

/-- Round trip of one word: lower-casing then `strings.Title` undoes the
upper-casing of a Title-Case word. -/
theorem word_roundtrip (w : List Char) (hw : titleWord w) :
    goTitle ((w.map goToUpperChar).map goToLowerChar) = w := by
  match w with
  | [] => exact absurd hw (fun h => h)
  | c :: cs =>
    obtain ⟨⟨h1, h2⟩, hcs⟩ := hw
    rw [List.map_cons, List.map_cons, goToUpperChar_of_upper c h1 h2,
      lower_upper_map_id cs hcs]
    obtain ⟨⟨hl1, hl2⟩, hup⟩ := lower_upper_of_upper c h1 h2
    show goTitleAux false (goToLowerChar c :: cs) = c :: cs
    unfold goTitleAux
    rw [isAsciiLetter_of_lower _ hl1 hl2]
    simp only [not_false_iff, true_and, if_true]
    rw [hup, goTitleAux_true_letters cs
      fun x hx => isAsciiLetter_of_lower x (hcs x hx).1 (hcs x hx).2]
    simp

theorem trimPrefixL_append (p r : List Char) : trimPrefixL p (p ++ r) = r := by
  unfold trimPrefixL
  rw [if_pos (List.isPrefixOf_iff_prefix.mpr (List.prefix_append p r)), List.drop_left]

/-- C9: the backward (download-side) translator is a left inverse of the
forward (upload-side) system-key transform: for every key of the shape
`Neofs-` followed by hyphen-joined Title-Case letters-only words, applying
`forwardSystemKey` (prefix replacement, hyphens to underscores, upper-casing)
and then `systemBackwardTranslator` yields the original HTTP key. -/
theorem c9_system_key_roundtrip (ws : List (List Char)) (hne : ws ≠ [])
    (hw : ∀ w ∈ ws, titleWord w) :
    systemBackwardTranslator
        (forwardSystemKey 6 (String.mk ("Neofs-".data ++ joinDash ws)))
      = String.mk ("Neofs-".data ++ joinDash ws) := by
  have hdrop : ("Neofs-".data ++ joinDash ws).drop 6 = joinDash ws := by
    have h6 : "Neofs-".data.length = 6 := by decide
    rw [← h6, List.drop_left]
  have hnodash : ∀ w ∈ ws, ∀ c ∈ w, c ≠ '-' := by
    intro w hwmem c hc
    match w, hw w hwmem with
    | c' :: cs, ⟨⟨h1, h2⟩, hcs⟩ =>
      rcases List.mem_cons.mp hc with hc | hc
      · rw [hc]; exact upper_ne_dash c' h1 h2
      · obtain ⟨hl1, hl2⟩ := hcs c hc
        exact lower_ne_dash c hl1 hl2
  have hforward : (forwardSystemKey 6 (String.mk ("Neofs-".data ++ joinDash ws))).data
      = "__NEOFS__".data ++ joinUnderscore (ws.map (List.map goToUpperChar)) := by
    show (("__NEOFS__".data ++ ("Neofs-".data ++ joinDash ws).drop 6).map
        dashToUnderscore).map goToUpperChar
      = "__NEOFS__".data ++ joinUnderscore (ws.map (List.map goToUpperChar))
    rw [hdrop, List.map_append, List.map_append,
      show ("__NEOFS__".data.map dashToUnderscore).map goToUpperChar
          = "__NEOFS__".data from by decide,
      map_dash_joinDash ws hnodash, map_upper_joinUnderscore ws]
  unfold systemBackwardTranslator
  rw [hforward]
  rw [show systemAttributePrefix.data = "__NEOFS__".data from rfl]
  rw [trimPrefixL_append]
  rw [splitUnderscore_joinUnderscore (ws.map (List.map goToUpperChar))
    (by simpa using hne)
    (by
      intro v hv c hc
      obtain ⟨w, hwmem, hvw⟩ := List.mem_map.mp hv
      rw [← hvw] at hc
      obtain ⟨h1, h2⟩ := upperWord_shape w (hw w hwmem) c hc
      exact upper_ne_underscore c h1 h2)]
  rw [List.map_map]
  have hmap : ∀ vs : List (List Char), (∀ w ∈ vs, titleWord w) →
      vs.map ((fun s => goTitle (s.map goToLowerChar)) ∘ List.map goToUpperChar) = vs := by
    intro vs
    induction vs with
    | nil => intro _; rfl
    | cons v vt ih =>
      intro hvs
      rw [List.map_cons, ih fun u hu => hvs u (List.mem_cons_of_mem v hu)]
      show goTitle ((v.map goToUpperChar).map goToLowerChar) :: vt = v :: vt
      rw [word_roundtrip v (hvs v (List.mem_cons_self v vt))]
  rw [hmap ws hw]

/-- Witness for `c9_system_key_roundtrip` at the key
`Neofs-Expiration-Epoch`. -/
theorem c9_system_key_roundtrip_witness :
    systemBackwardTranslator
        (forwardSystemKey 6 (String.mk ("Neofs-".data ++
          joinDash [['E', 'x', 'p', 'i', 'r', 'a', 't', 'i', 'o', 'n'],
            ['E', 'p', 'o', 'c', 'h']])))
      = String.mk ("Neofs-".data ++
          joinDash [['E', 'x', 'p', 'i', 'r', 'a', 't', 'i', 'o', 'n'],
            ['E', 'p', 'o', 'c', 'h']]) :=
  c9_system_key_roundtrip
    [['E', 'x', 'p', 'i', 'r', 'a', 't', 'i', 'o', 'n'], ['E', 'p', 'o', 'c', 'h']]
    (by simp)
    (by
      intro w hwmem
      rcases List.mem_cons.mp hwmem with h | h
      · rw [h]
        show ('A' ≤ 'E' ∧ 'E' ≤ 'Z') ∧ _
        exact ⟨by decide, by decide⟩
      · rcases List.mem_cons.mp h with h | h
        · rw [h]
          show ('A' ≤ 'E' ∧ 'E' ≤ 'Z') ∧ _
          exact ⟨by decide, by decide⟩
        · exact absurd h (by simp))

end NeofsGw
